import Mathlib

/-!
Verification of the reactive navigation/history engine of radicle-upstream.

The Navigation facade is embedded from `src/ui/src/view.ts`.  The History
Stack (`ui/src/history.ts`) and the Observable Store backing it are not
present in the source tree, so they are modelled from the spec (sections
4.1 and 4.2), as noted on each such definition.
-/

namespace RadicleUpstream

/-- Property values: `type Props = Record<string, 0 | string>` in
`src/ui/src/view.ts` restricts every value to the literal zero or a string. -/
inductive PropVal where
  | zero : PropVal
  | str : String → PropVal
deriving DecidableEq, Repr

/-- A property bag: a finite mapping from string names to `PropVal`s,
from `src/ui/src/view.ts` (`Props`). -/
abbrev Props := List (String × PropVal)

/-- Modelled from the spec: the Observable Store of section 4.1 (the
`svelte/store` writable that backs `ui/src/history.ts`, which is not under
the source tree).  It holds one value and an ordered list of subscriber
handles; `nextId` generates fresh handles.  Callback invocations are made
explicit as `(handle, value)` notification events returned by each
operation. -/
structure Store (T : Type) where
  value : T
  subs : List Nat
  nextId : Nat
deriving Repr

/-- Modelled from the spec: `create(initial)` seeds the store with the
initial value and no subscribers. -/
def Store.create {T : Type} (initial : T) : Store T :=
  ⟨initial, [], 0⟩

/-- Modelled from the spec: `subscribe(callback)` registers the callback
(appended, so `subs` stays in registration order), replays the current
value to it exactly once, and returns the deregistration handle.  Result:
(new store, handle, notification events emitted during the call). -/
def Store.subscribeOp {T : Type} (s : Store T) : Store T × Nat × List (Nat × T) :=
  (⟨s.value, s.subs ++ [s.nextId], s.nextId + 1⟩, s.nextId, [(s.nextId, s.value)])

/-- Modelled from the spec: invoking the deregistration handle removes the
callback; a handle not present is ignored, so a second call is a no-op. -/
def Store.unsub {T : Type} (s : Store T) (h : Nat) : Store T :=
  ⟨s.value, s.subs.filter (fun i => i != h), s.nextId⟩

/-- Modelled from the spec: `set(value)` replaces the stored value and
synchronously notifies every currently-registered subscriber, in
registration order, with the new value. -/
def Store.setOp {T : Type} (s : Store T) (v : T) : Store T × List (Nat × T) :=
  (⟨v, s.subs, s.nextId⟩, s.subs.map (fun i => (i, v)))

/-- Modelled from the spec: `update(f)` replaces the value by `f` of the
current value and notifies like `set`. -/
def Store.updateOp {T : Type} (s : Store T) (f : T → T) : Store T × List (Nat × T) :=
  s.setOp (f s.value)

/-- Modelled from the spec: the History Stack of `ui/src/history.ts`
(section 4.2).  The sequence is kept newest-first: the head of `stack` is
the top; the spec's "append to the end (new top)" is `cons` here.  The
store exposes the top reactively. -/
structure History (T : Type) where
  stack : List T
  store : Store T
deriving Repr

/-- Modelled from the spec: `create(initial)` seeds the stack with
`[initial]` and the store holding `initial`. -/
def History.create {T : Type} (initial : T) : History T :=
  ⟨[initial], Store.create initial⟩

/-- Modelled from the spec: `push(item)` makes `item` the new top and
notifies via the store. -/
def History.push {T : Type} (h : History T) (item : T) : History T × List (Nat × T) :=
  let p := h.store.setOp item
  (⟨item :: h.stack, p.1⟩, p.2)

/-- Modelled from the spec: `pop()` removes the top element if the
sequence length is greater than 1 and notifies with the new top (the
previous element); with only the root left it is a no-op (the policy the
spec recommends, preserving the non-empty invariant). -/
def History.pop {T : Type} (h : History T) : History T × List (Nat × T) :=
  match h.stack with
  | _ :: prev :: rest =>
      let p := h.store.setOp prev
      (⟨prev :: rest, p.1⟩, p.2)
  | _ => (h, [])

/-- A mutation on a History Stack: one `push` or `pop` call. -/
inductive HOp (T : Type) where
  | push : T → HOp T
  | pop : HOp T
deriving Repr

/-- One mutation step, returning the new history and the notification
events it emitted. -/
def History.stepEv {T : Type} (h : History T) : HOp T → History T × List (Nat × T)
  | .push t => h.push t
  | .pop => h.pop

/-- Run a finite sequence of push/pop calls. -/
def History.runOps {T : Type} (h : History T) : List (HOp T) → History T
  | [] => h
  | op :: rest => ((h.stepEv op).1).runOps rest

/-- All notification events emitted while running a sequence of push/pop
calls, in order. -/
def History.runEvents {T : Type} (h : History T) : List (HOp T) → List (Nat × T)
  | [] => []
  | op :: rest => (h.stepEv op).2 ++ ((h.stepEv op).1).runEvents rest

/-- The item pushed by an operation, if it is a push. -/
def HOp.pushed? {T : Type} : HOp T → Option T
  | .push t => some t
  | .pop => none

/-- The items pushed by a sequence of operations, in order. -/
def pushedItems {T : Type} (ops : List (HOp T)) : List T :=
  ops.filterMap HOp.pushed?

/-- `View<K>` from `src/ui/src/view.ts`: an opaque renderable component
handle (of some type `C`), the screen key, and optional props. -/
structure View (K : Type) (C : Type) where
  component : C
  key : K
  props : Option Props
deriving Repr

/-- A `Navigation<K>` instance: the component map captured at construction
(immutable thereafter) together with the backing History Stack of views,
as closed over by `create` in `src/ui/src/view.ts`. -/
structure Navigation (K : Type) (C : Type) where
  componentMap : K → C
  hist : History (View K C)

namespace view

/-- `create(componentMap, initial)` from `src/ui/src/view.ts`: seeds the
history with the view `{ component: componentMap[initial], key: initial }`
(no props). -/
def create {K C : Type} (componentMap : K → C) (initial : K) : Navigation K C :=
  ⟨componentMap, History.create ⟨componentMap initial, initial, none⟩⟩

end view

/-- `set(key, props)` from `src/ui/src/view.ts`: resolves
`componentMap[key]` and pushes `{ component, key, props }` onto the
history.  Returns the new navigation and the notification events. -/
def Navigation.set {K C : Type} (n : Navigation K C) (key : K) (props : Option Props) :
    Navigation K C × List (Nat × View K C) :=
  let p := n.hist.push ⟨n.componentMap key, key, props⟩
  (⟨n.componentMap, p.1⟩, p.2)

/-- `back()` from `src/ui/src/view.ts`: pops the underlying history. -/
def Navigation.back {K C : Type} (n : Navigation K C) :
    Navigation K C × List (Nat × View K C) :=
  let p := n.hist.pop
  (⟨n.componentMap, p.1⟩, p.2)

/-- The value currently exposed by the navigation's `current` store. -/
def Navigation.current {K C : Type} (n : Navigation K C) : View K C :=
  n.hist.store.value

/-- A call on a Navigation facade: `set(key, props)` or `back()`. -/
inductive NavOp (K : Type) where
  | set : K → Option Props → NavOp K
  | back : NavOp K

/-- One navigation step (discarding events). -/
def Navigation.stepNav {K C : Type} (n : Navigation K C) : NavOp K → Navigation K C
  | .set key props => (n.set key props).1
  | .back => n.back.1

/-- Run a finite sequence of `set`/`back` calls. -/
def Navigation.runNav {K C : Type} (n : Navigation K C) : List (NavOp K) → Navigation K C
  | [] => n
  | op :: rest => (n.stepNav op).runNav rest

/-- The props passed to the `set` calls of a sequence, in order. -/
def setProps {K : Type} (ops : List (NavOp K)) : List (Option Props) :=
  ops.filterMap (fun op => match op with
    | .set _ props => some props
    | .back => none)

/-! ### History Stack invariants -/

/-- The store always mirrors the top of the stack, the stack is never
empty, and every stacked item comes from the allowed provenance list;
preserved by any sequence of push/pop calls whose pushed items are
allowed. -/
theorem History.runOps_inv {T : Type} (A : List T) :
    ∀ (ops : List (HOp T)) (h : History T),
      h.stack ≠ [] →
      h.stack.head? = some h.store.value →
      (∀ x ∈ h.stack, x ∈ A) →
      (∀ t, HOp.push t ∈ ops → t ∈ A) →
      (h.runOps ops).stack ≠ [] ∧
        (h.runOps ops).stack.head? = some (h.runOps ops).store.value ∧
        ∀ x ∈ (h.runOps ops).stack, x ∈ A := by
  intro ops
  induction ops with
  | nil =>
      intro h hne htop hmem _
      exact ⟨hne, htop, hmem⟩
  | cons op rest ih =>
      intro h hne htop hmem hallowed
      have hrest : ∀ t, HOp.push t ∈ rest → t ∈ A := by
        intro t ht
        exact hallowed t (List.mem_cons_of_mem _ ht)
      cases op with
      | push t =>
          have htA : t ∈ A := hallowed t (List.mem_cons_self _ _)
          refine ih _ ?_ ?_ ?_ hrest
          · simp [History.stepEv, History.push, Store.setOp]
          · simp [History.stepEv, History.push, Store.setOp]
          · intro x hx
            simp only [History.stepEv, History.push, Store.setOp, List.mem_cons] at hx
            rcases hx with hx | hx
            · exact hx ▸ htA
            · exact hmem x hx
      | pop =>
          match hstack : h.stack with
          | [] => exact absurd hstack hne
          | [a] =>
              refine ih _ ?_ ?_ ?_ hrest
              · simp [History.stepEv, History.pop, hstack, hstack ▸ hne]
              · simpa [History.stepEv, History.pop, hstack] using htop
              · intro x hx
                apply hmem
                rw [hstack]
                simpa [History.stepEv, History.pop, hstack] using hx
          | a :: b :: tl =>
              refine ih _ ?_ ?_ ?_ hrest
              · simp [History.stepEv, History.pop, hstack]
              · simp [History.stepEv, History.pop, hstack, Store.setOp]
              · intro x hx
                apply hmem
                rw [hstack]
                simp only [History.stepEv, History.pop, hstack, Store.setOp,
                  List.mem_cons] at hx ⊢
                tauto

/-- C1: for every initial value and finite sequence of push/pop calls
applied to a History Stack created by `create(initial)`, the stack is
never empty, `current` (the store value) equals the top of the stack, and
the top is the initial value or some previously pushed value. -/
theorem history_nonempty_current_top {T : Type} (initial : T) (ops : List (HOp T)) :
    ((History.create initial).runOps ops).stack ≠ [] ∧
      ((History.create initial).runOps ops).stack.head? =
        some ((History.create initial).runOps ops).store.value ∧
      ((History.create initial).runOps ops).store.value ∈ initial :: pushedItems ops := by
  have hmain := History.runOps_inv (initial :: pushedItems ops) ops (History.create initial)
    (by simp [History.create])
    (by simp [History.create, Store.create])
    (by simp [History.create])
    (by
      intro t ht
      right
      simp only [pushedItems]
      exact List.mem_filterMap.2 ⟨HOp.push t, ht, rfl⟩)
  refine ⟨hmain.1, hmain.2.1, ?_⟩
  have htop := hmain.2.1
  have hhead : ((History.create initial).runOps ops).store.value ∈
      ((History.create initial).runOps ops).stack := by
    exact List.mem_of_mem_head? (by rw [htop]; rfl)
  exact hmain.2.2 _ hhead

/-- C4: for all items `a`, `b`, starting from `create(x)`, the call
sequence `push(a); push(b); pop(); pop()` yields `current == a`
immediately after the first pop and `current == x` at the end. -/
theorem push_push_pop_pop {T : Type} (x a b : T) :
    (((((History.create x).push a).1.push b).1.pop).1.store.value = a) ∧
      ((((((History.create x).push a).1.push b).1.pop).1.pop).1.store.value = x) := by
  constructor <;> rfl

/-! ### Navigation facade invariants -/

/-- Popping never adds elements: the stack after `pop` is contained in the
stack before. -/
theorem History.pop_stack_subset {T : Type} :
    ∀ (stack : List T) (store : Store T) (v : T),
      v ∈ (History.mk stack store).pop.1.stack → v ∈ stack := by
  intro stack store v hv
  match stack with
  | [] => exact hv
  | [a] => exact hv
  | a :: b :: tl => exact List.mem_cons_of_mem _ hv

/-- A single `set` or `back` call leaves the component map unchanged. -/
theorem Navigation.stepNav_componentMap {K C : Type} (n : Navigation K C) (op : NavOp K) :
    (n.stepNav op).componentMap = n.componentMap := by
  cases op <;> rfl

/-- The component map captured at construction never changes over any
sequence of `set`/`back` calls. -/
theorem Navigation.runNav_componentMap {K C : Type} :
    ∀ (ops : List (NavOp K)) (n : Navigation K C),
      (n.runNav ops).componentMap = n.componentMap := by
  intro ops
  induction ops with
  | nil => intro n; rfl
  | cons op rest ih =>
      intro n
      have hstep := Navigation.stepNav_componentMap n op
      simp only [Navigation.runNav]
      rw [ih, hstep]

/-- A property of views that holds on the whole stack and on every view a
`set` call in the sequence would push is preserved by running the
sequence. -/
theorem Navigation.runNav_stack_inv {K C : Type} (P : View K C → Prop) :
    ∀ (ops : List (NavOp K)) (n : Navigation K C),
      (∀ v ∈ n.hist.stack, P v) →
      (∀ key props, NavOp.set key props ∈ ops → P ⟨n.componentMap key, key, props⟩) →
      ∀ v ∈ (n.runNav ops).hist.stack, P v := by
  intro ops
  induction ops with
  | nil => intro n hstack _; exact hstack
  | cons op rest ih =>
      intro n hstack hset
      have hrest0 : ∀ key props, NavOp.set key props ∈ rest →
          P ⟨n.componentMap key, key, props⟩ := by
        intro key props hmem
        exact hset key props (List.mem_cons_of_mem _ hmem)
      cases op with
      | set key props =>
          simp only [Navigation.runNav, Navigation.stepNav]
          refine ih _ ?_ ?_
          · intro v hv
            simp only [Navigation.set, History.push, Store.setOp, List.mem_cons] at hv
            rcases hv with hv | hv
            · exact hv ▸ hset key props (List.mem_cons_self _ _)
            · exact hstack v hv
          · intro k2 p2 hmem
            simpa [Navigation.set] using hrest0 k2 p2 hmem
      | back =>
          simp only [Navigation.runNav, Navigation.stepNav]
          refine ih _ ?_ ?_
          · intro v hv
            exact hstack v (History.pop_stack_subset n.hist.stack n.hist.store v hv)
          · intro k2 p2 hmem
            exact hrest0 k2 p2 hmem

/-- C2: the initial view built by `create(componentMap, initial)` is
exactly `{ component: componentMap[initial], key: initial }` with no
props, the component map never changes, and after any sequence of
`set`/`back` calls every view on the stack has `component` exactly
`componentMap` applied to its key. -/
theorem navigation_component_resolution {K C : Type} (cm : K → C) (initial : K)
    (ops : List (NavOp K)) :
    (view.create cm initial).hist.stack = [⟨cm initial, initial, none⟩] ∧
      ((view.create cm initial).runNav ops).componentMap = cm ∧
      ∀ v ∈ ((view.create cm initial).runNav ops).hist.stack,
        v.component = cm v.key := by
  refine ⟨rfl, Navigation.runNav_componentMap ops _, ?_⟩
  refine Navigation.runNav_stack_inv (fun v => v.component = cm v.key) ops _ ?_ ?_
  · intro v hv
    simp only [view.create, History.create, List.mem_singleton] at hv
    rw [hv]
  · intro key props _
    rfl

/-- C10: `set(key, props)` always pushes a fresh view entry — with no
precondition relating `key` or `props` to the current view, so in
particular even when they coincide with it — growing the history by
exactly one entry and making the new view current. -/
theorem set_always_pushes {K C : Type} (n : Navigation K C) (key : K)
    (props : Option Props) :
    ((n.set key props).1).hist.stack = ⟨n.componentMap key, key, props⟩ :: n.hist.stack ∧
      ((n.set key props).1).hist.stack.length = n.hist.stack.length + 1 ∧
      ((n.set key props).1).current = ⟨n.componentMap key, key, props⟩ := by
  refine ⟨rfl, ?_, rfl⟩
  simp [Navigation.set, History.push]

/-! ### Concrete two-screen scenario -/

/-- The closed key set `{ A, B }` of the spec's round-trip scenario. -/
inductive Key2 where
  | A : Key2
  | B : Key2
deriving DecidableEq, Repr

/-- Two distinct renderable component handles, `CompA` and `CompB`. -/
inductive Comp2 where
  | CompA : Comp2
  | CompB : Comp2
deriving DecidableEq, Repr

/-- The component map `{ A: CompA, B: CompB }`. -/
def componentMap2 : Key2 → Comp2
  | .A => .CompA
  | .B => .CompB

/-- C3: with `componentMap = { A: CompA, B: CompB }` and initial key `A`,
`current.key` is `A`; after `set(B, { x: "y" })`, `current.key` is `B`
and `current.props` is `{ x: "y" }`; after a subsequent `back()`,
`current.key` is `A` again and `current.props` is absent. -/
theorem nav_set_back_roundtrip :
    ((view.create componentMap2 Key2.A).current.key = Key2.A) ∧
      (((view.create componentMap2 Key2.A).set Key2.B
          (some [(("x"), PropVal.str ("y"))])).1.current.key = Key2.B) ∧
      (((view.create componentMap2 Key2.A).set Key2.B
          (some [(("x"), PropVal.str ("y"))])).1.current.props =
        some [(("x"), PropVal.str ("y"))]) ∧
      ((((view.create componentMap2 Key2.A).set Key2.B
          (some [(("x"), PropVal.str ("y"))])).1.back).1.current.key = Key2.A) ∧
      ((((view.create componentMap2 Key2.A).set Key2.B
          (some [(("x"), PropVal.str ("y"))])).1.back).1.current.props = none) := by
  refine ⟨rfl, rfl, rfl, rfl, rfl⟩

/-! ### Pop policy and back idempotence -/

/-- Iterated `back()` calls. -/
def Navigation.backN {K C : Type} (n : Navigation K C) : Nat → Navigation K C
  | 0 => n
  | m + 1 => (n.back.1).backN m

/-- C7: `pop()` removes the top element exactly when the stack length is
greater than 1, notifying with the new top (the previous element), and is
a no-op (emitting nothing) otherwise; consequently any number of `back()`
calls on a freshly created Navigation leave it unchanged and emit no
notification, so repeated `back()` is idempotent in its observable
effect. -/
theorem pop_policy_back_idempotent {T K C : Type} (a b : T) (tl : List T)
    (st : Store T) (cm : K → C) (initial : K) (m : Nat) :
    ((History.mk (a :: b :: tl) st).pop =
        (History.mk (b :: tl) ⟨b, st.subs, st.nextId⟩, st.subs.map (fun i => (i, b)))) ∧
      ((History.mk [a] st).pop = (History.mk [a] st, [])) ∧
      ((view.create cm initial).back =
        (view.create cm initial, [])) ∧
      ((view.create cm initial).backN m = view.create cm initial) := by
  refine ⟨rfl, rfl, rfl, ?_⟩
  induction m with
  | zero => rfl
  | succ k ih =>
      show ((view.create cm initial).back.1).backN k = view.create cm initial
      exact ih

/-! ### Observable Store: subscribe, notification order, unsubscribe -/

/-- C5: `subscribe(callback)` emits exactly one notification during the
call, carrying the current value, to the newly registered callback;
`set`, `update`, `push` and `pop` each notify all registered subscribers
in registration order with the new value; and a callback registered by
`subscribe` is among those notified by a subsequent `set`. -/
theorem store_subscribe_replay {T : Type} (s : Store T) (v : T) (f : T → T)
    (item : T) (hst : History T) (a b : T) (tl : List T) :
    (s.subscribeOp.2.2 = [(s.subscribeOp.2.1, s.value)]) ∧
      ((s.setOp v).2 = s.subs.map (fun i => (i, v))) ∧
      ((s.updateOp f).2 = s.subs.map (fun i => (i, f s.value))) ∧
      ((hst.push item).2 = hst.store.subs.map (fun i => (i, item))) ∧
      ((History.mk (a :: b :: tl) s).pop.2 = s.subs.map (fun i => (i, b))) ∧
      ((s.subscribeOp.1.setOp v).2 =
        (s.subs ++ [s.subscribeOp.2.1]).map (fun i => (i, v))) := by
  refine ⟨rfl, rfl, rfl, rfl, rfl, rfl⟩

/-- `pop` leaves the subscriber list untouched. -/
theorem History.pop_store_subs {T : Type} :
    ∀ (stack : List T) (store : Store T),
      ((History.mk stack store).pop.1).store.subs = store.subs := by
  intro stack store
  match stack with
  | [] => rfl
  | [a] => rfl
  | a :: b :: tl => rfl

/-- Every notification emitted by `pop` goes to a registered subscriber. -/
theorem History.pop_events_mem {T : Type} :
    ∀ (stack : List T) (store : Store T) (ev : Nat × T),
      ev ∈ (History.mk stack store).pop.2 → ev.1 ∈ store.subs := by
  intro stack store ev hev
  match stack with
  | [] => cases hev
  | [a] => cases hev
  | a :: b :: tl =>
      obtain ⟨i, hi, hieq⟩ := List.mem_map.1 hev
      cases hieq
      exact hi

/-- A `push`/`pop` step leaves the subscriber list untouched. -/
theorem History.stepEv_subs {T : Type} (h : History T) (op : HOp T) :
    ((h.stepEv op).1).store.subs = h.store.subs := by
  cases op with
  | push t => rfl
  | pop => exact History.pop_store_subs h.stack h.store

/-- Every notification emitted while running a sequence of `push`/`pop`
calls goes to a subscriber registered before the run (mutations never add
subscribers). -/
theorem History.runEvents_mem {T : Type} :
    ∀ (ops : List (HOp T)) (h : History T) (ev : Nat × T),
      ev ∈ h.runEvents ops → ev.1 ∈ h.store.subs := by
  intro ops
  induction ops with
  | nil =>
      intro h ev hev
      cases hev
  | cons op rest ih =>
      intro h ev hev
      simp only [History.runEvents, List.mem_append] at hev
      rcases hev with hev | hev
      · cases op with
        | push t =>
            obtain ⟨i, hi, hieq⟩ := List.mem_map.1 hev
            cases hieq
            exact hi
        | pop => exact History.pop_events_mem h.stack h.store ev hev
      · have hmem := ih _ ev hev
        rwa [History.stepEv_subs] at hmem

/-- C6: invoking the deregistration handle twice equals invoking it once
(a no-op the second time), the handle's callback is no longer registered,
and no notification emitted by any later sequence of `push`/`pop` (hence
`set`) mutations is addressed to it. -/
theorem unsubscribe_stops_notifications {T : Type} (s : Store T) (hId : Nat)
    (stack : List T) (ops : List (HOp T)) :
    ((s.unsub hId).unsub hId = s.unsub hId) ∧
      hId ∉ (s.unsub hId).subs ∧
      ∀ ev ∈ (History.mk stack (s.unsub hId)).runEvents ops, ev.1 ≠ hId := by
  refine ⟨?_, ?_, ?_⟩
  · simp [Store.unsub, List.filter_filter]
  · simp [Store.unsub, List.mem_filter]
  · intro ev hev
    have hmem := History.runEvents_mem ops (History.mk stack (s.unsub hId)) ev hev
    simp only [Store.unsub, List.mem_filter, bne_iff_ne, ne_eq] at hmem
    exact hmem.2

/-! ### Total component maps make key lookup infallible -/

/-- A component map given extensionally as entries, as the object literal
supplied for `Map<Key, C> = Required<Record<Key, C>>` in
`src/ui/src/view.ts`; looking a key up among the entries is the one
operation that could conceivably fail (return nothing). -/
def mapLookup {K C : Type} [DecidableEq K] (entries : List (K × C)) (k : K) : Option C :=
  (entries.find? (fun e => e.1 == k)).map (fun e => e.2)

/-- Totality over `K`: every key has an entry, the invariant the
`Required<Record<Key, C>>` type enforces at compile time. -/
def MapTotal {K C : Type} [DecidableEq K] (entries : List (K × C)) : Prop :=
  ∀ k : K, (mapLookup entries k).isSome

/-- `set(key, props)` with the component resolved by entry lookup; the
`none` branch is the error branch for a missing key. -/
def Navigation.setViaEntries {K C : Type} [DecidableEq K] (entries : List (K × C))
    (n : Navigation K C) (key : K) (props : Option Props) :
    Option (Navigation K C × List (Nat × View K C)) :=
  match mapLookup entries key with
  | some c =>
      let p := n.hist.push ⟨c, key, props⟩
      some (⟨n.componentMap, p.1⟩, p.2)
  | none => none

/-- C8: when the component map is total over `K`, `componentMap[k]` is
defined for every key, so the lookup performed by `set` (and by `create`
for the initial key) cannot fail: the error branch for a missing key is
unreachable. -/
theorem total_map_lookup_never_fails {K C : Type} [DecidableEq K]
    (entries : List (K × C)) (htotal : MapTotal entries)
    (n : Navigation K C) (key : K) (props : Option Props) :
    (∃ c, mapLookup entries key = some c) ∧
      (Navigation.setViaEntries entries n key props).isSome := by
  obtain ⟨c, hc⟩ := Option.isSome_iff_exists.1 (htotal key)
  refine ⟨⟨c, hc⟩, ?_⟩
  simp [Navigation.setViaEntries, hc]

/-- Concrete instance of C8: a total two-entry map over `Bool`, on which
lookup and `setViaEntries` visibly succeed. -/
theorem total_map_lookup_never_fails_witness :
    MapTotal [((true), (1 : Nat)), ((false), 2)] ∧
      (∃ c, mapLookup [((true), (1 : Nat)), ((false), 2)] true = some c) ∧
      (Navigation.setViaEntries [((true), (1 : Nat)), ((false), 2)]
        (view.create (fun _ => (0 : Nat)) true) true none).isSome := by
  have htotal : MapTotal [((true), (1 : Nat)), ((false), 2)] := by
    intro k
    cases k <;> rfl
  have h := total_map_lookup_never_fails [((true), (1 : Nat)), ((false), 2)] htotal
    (view.create (fun _ => (0 : Nat)) true) true none
  exact ⟨htotal, h.1, h.2⟩

/-! ### Property bags stay in their restricted domain -/

/-- C9: every property value is the literal zero or a string (the domain
`0 | string` of `Props` in `src/ui/src/view.ts`), and the engine never
widens or interprets property bags: after any sequence of `set`/`back`
calls, every view on the stack carries either no props or verbatim one of
the bags passed to a `set` call. -/
theorem props_domain_and_provenance {K C : Type} (cm : K → C) (initial : K)
    (ops : List (NavOp K)) :
    (∀ pv : PropVal, pv = PropVal.zero ∨ ∃ s, pv = PropVal.str s) ∧
      ∀ v ∈ ((view.create cm initial).runNav ops).hist.stack,
        v.props ∈ (none : Option Props) :: setProps ops := by
  constructor
  · intro pv
    cases pv with
    | zero => exact Or.inl rfl
    | str s => exact Or.inr ⟨s, rfl⟩
  · refine Navigation.runNav_stack_inv
      (fun v => v.props ∈ (none : Option Props) :: setProps ops) ops _ ?_ ?_
    · intro v hv
      simp only [view.create, History.create, List.mem_singleton] at hv
      rw [hv]
      exact List.mem_cons_self _ _
    · intro key props hmem
      apply List.mem_cons_of_mem
      simp only [setProps]
      exact List.mem_filterMap.2 ⟨NavOp.set key props, hmem, rfl⟩

/-- Concrete instance of C9: the initial view of the two-screen scenario
has no props, and the zero sentinel lies in the allowed domain. -/
theorem props_domain_and_provenance_witness :
    (PropVal.zero = PropVal.zero ∨ ∃ s, PropVal.zero = PropVal.str s) ∧
      (⟨Comp2.CompA, Key2.A, none⟩ : View Key2 Comp2) ∈
        ((view.create componentMap2 Key2.A).runNav []).hist.stack ∧
      (⟨Comp2.CompA, Key2.A, none⟩ : View Key2 Comp2).props ∈
        (none : Option Props) :: setProps ([] : List (NavOp Key2)) := by
  have hmem : (⟨Comp2.CompA, Key2.A, none⟩ : View Key2 Comp2) ∈
      ((view.create componentMap2 Key2.A).runNav []).hist.stack :=
    List.mem_cons_self _ _
  have h := props_domain_and_provenance componentMap2 Key2.A ([] : List (NavOp Key2))
  exact ⟨h.1 PropVal.zero, hmem, h.2 _ hmem⟩

/-- Concrete instance of C2: in the two-screen scenario the initial stack
is the singleton initial view, whose component is the map's image of its
key. -/
theorem navigation_component_resolution_witness :
    ((view.create componentMap2 Key2.A).hist.stack =
        [⟨componentMap2 Key2.A, Key2.A, none⟩]) ∧
      (⟨Comp2.CompA, Key2.A, none⟩ : View Key2 Comp2) ∈
        ((view.create componentMap2 Key2.A).runNav []).hist.stack ∧
      (⟨Comp2.CompA, Key2.A, none⟩ : View Key2 Comp2).component =
        componentMap2 (⟨Comp2.CompA, Key2.A, none⟩ : View Key2 Comp2).key := by
  have hmem : (⟨Comp2.CompA, Key2.A, none⟩ : View Key2 Comp2) ∈
      ((view.create componentMap2 Key2.A).runNav []).hist.stack :=
    List.mem_cons_self _ _
  have h := navigation_component_resolution componentMap2 Key2.A ([] : List (NavOp Key2))
  exact ⟨h.1, hmem, h.2.2 _ hmem⟩

/-- Concrete instance of C6: after unsubscribing handle 0 from a store
with subscribers 0 and 1, a push notifies subscriber 1 only, and that
notification is not addressed to handle 0. -/
theorem unsubscribe_stops_notifications_witness :
    (((1 : Nat), (5 : Nat)) ∈
        (History.mk [(0 : Nat)] ((Store.mk (0 : Nat) [0, 1] 2).unsub 0)).runEvents
          [HOp.push 5]) ∧
      (1 : Nat) ≠ 0 := by
  have hmem : ((1 : Nat), (5 : Nat)) ∈
      (History.mk [(0 : Nat)] ((Store.mk (0 : Nat) [0, 1] 2).unsub 0)).runEvents
        [HOp.push 5] := by decide
  have h := unsubscribe_stops_notifications (Store.mk (0 : Nat) [0, 1] 2) 0
    [(0 : Nat)] [HOp.push 5]
  exact ⟨hmem, h.2.2 _ hmem⟩

end RadicleUpstream
